import Mathlib

/-!
Verification of the job-scheduling / resumable-state core of the
BS-survey batch driver (`197_BSsurvey_multiproceso_litterbox.py`,
`198_BSsurvey_get_multi_filenames.py`).

Python strings are embedded as `List Char`; the relevant Python string
primitives (`str.strip`, `str.replace`, `str.split`, substring test,
`pathlib.Path(...).name`) are modelled explicitly below, and each source
function of the repository is translated into a Lean definition of the
same name.  File-system state is embedded explicitly: the three durable
state files as an optional-content record, the temp directory as a list
of file names, the output directory as an association list from file
names to file contents (lists of lines).
-/

/-- Identities, tokens, cells, lines and file names are Python strings,
embedded as lists of characters. -/
abbrev Ident := List Char

/-- Embed a Lean string literal as a Python string value. -/
def chars (s : String) : List Char := s.toList

/-- Python `s.strip(bad)`: remove leading and trailing characters
satisfying `bad`. -/
def stripSet (bad : Char → Bool) (s : List Char) : List Char :=
  ((s.dropWhile bad).reverse.dropWhile bad).reverse

/-- Python's whitespace characters (the ASCII ones relevant here). -/
def isPyWS (c : Char) : Bool :=
  c = ' ' || c = '\t' || c = '\n' || c = '\r' || c = '\x0b' || c = '\x0c'

/-- Python `s.strip()` (no argument: strip whitespace). -/
def pyStripWS (s : List Char) : List Char := stripSet isPyWS s

/-- Fuel-driven worker for `replaceAll`; the fuel is the length of the
remaining string, which bounds the recursion. -/
def replaceAllGo (old new : List Char) : Nat → List Char → List Char
  | 0, s => s
  | fuel + 1, s =>
    if !old.isEmpty && old.isPrefixOf s then
      new ++ replaceAllGo old new fuel (s.drop old.length)
    else
      match s with
      | [] => []
      | c :: tl => c :: replaceAllGo old new fuel tl

/-- Python `s.replace(old, new)`: replace every non-overlapping
occurrence of `old`, scanning left to right. -/
def replaceAll (old new s : List Char) : List Char :=
  replaceAllGo old new s.length s

/-- Python `s.split(sep)` for a single-character separator:
always returns at least one (possibly empty) field. -/
def splitOnChar (sep : Char) : List Char → List (List Char)
  | [] => [[]]
  | c :: tl =>
    let r := splitOnChar sep tl
    if c = sep then [] :: r
    else
      match r with
      | [] => [[c]]
      | h :: t => (c :: h) :: t

/-- Python `pat in s` (substring containment). -/
def pyContains (s pat : List Char) : Bool :=
  match s with
  | [] => pat.isEmpty
  | _ :: tl => pat.isPrefixOf s || pyContains tl pat

/-- Python `s.lower()` (ASCII case fold suffices for the header tokens
used by the loader). -/
def pyLower (s : List Char) : List Char := s.map Char.toLower

/-- Model of `pathlib.Path(p).name`: the final path component, after
dropping empty components and `.` components (which pathlib removes
while parsing); empty when no component remains (for example for `.`
or `/`). -/
def pathName (s : List Char) : List Char :=
  (((splitOnChar '/' s).filter (fun c => !c.isEmpty && c ≠ chars ".")).getLastD [])

/-- The sanitation pipeline inside `derive_token_from_project`, before
the final `or` fallback: last `_`-separated part of the path name,
spaces to dashes, the extensions `.txt`/`.csv`/`.list` removed, then
stripped of leading/trailing `.`/`-`/`_`. -/
def sanitizedToken (project : List Char) : List Char :=
  let name := pathName project
  let token0 := if name.contains '_' then (splitOnChar '_' name).getLastD [] else name
  let token1 := replaceAll (chars " ") (chars "-") token0
  let token2 :=
    replaceAll (chars ".list") []
      (replaceAll (chars ".csv") [] (replaceAll (chars ".txt") [] token1))
  stripSet (fun c => c = '.' || c = '-' || c = '_') token2

/-- `derive_token_from_project` from the source: sanitized token, with
`token or name` as the final fallback (`name` is `Path(project).name`,
not the full identity). -/
def derive_token_from_project (project : List Char) : List Char :=
  if (sanitizedToken project).isEmpty then pathName project else sanitizedToken project

/-! ## Item source: `load_jobs_from_csv` -/

/-- `JobSpec` from the source: the raw project identity plus the derived
token used to name temporary files and logs. -/
structure JobSpec where
  project : List Char
  token : List Char
deriving DecidableEq, Repr

/-- A parsed CSV row: a list of cell values (the `csv.reader` layer is
outside the scheduling core; rows arrive already split into cells). -/
abbrev Row := List (List Char)

/-- The inner sanitation of `add_job`: `raw.strip().strip('"')`. -/
def sanitizeCell (raw : List Char) : List Char :=
  stripSet (fun c => c = '"') (pyStripWS raw)

/-- `add_job` from the source: drop the cell when the sanitized value is
empty, otherwise emit one `JobSpec` for it. -/
def add_job (raw : List Char) : List JobSpec :=
  if (sanitizeCell raw).isEmpty then []
  else [⟨sanitizeCell raw, derive_token_from_project (sanitizeCell raw)⟩]

/-- Header-marker test for a normalized header cell:
`"project" in c or "proyecto" in c`. -/
def isMarker (c : List Char) : Bool :=
  pyContains c (chars "project") || pyContains c (chars "proyecto")

/-- The header-branch row loop of `load_jobs_from_csv`: skip empty rows,
read column `idx` of each remaining row; `row[idx]` on a row that is too
short raises `IndexError`, modelled as `Except.error`. -/
def collectAt (idx : Nat) : List Row → Except Unit (List JobSpec)
  | [] => .ok []
  | row :: rest =>
    if row.isEmpty then collectAt idx rest
    else
      match row.get? idx with
      | none => .error ()
      | some cell =>
        match collectAt idx rest with
        | .error e => .error e
        | .ok js => .ok (add_job cell ++ js)

/-- The no-header row loop of `load_jobs_from_csv`: skip empty rows and
read column 0 (safe, the row is non-empty). -/
def collectCol0 : List Row → List JobSpec
  | [] => []
  | row :: rest =>
    if row.isEmpty then collectCol0 rest
    else add_job (row.headD []) ++ collectCol0 rest

/-- `load_jobs_from_csv` from the source, over parsed rows: detect a
header row by a case-insensitive substring match for a project marker in
any first-row cell; if found, read the first matching column of every
later row, otherwise read column 0 of every row including the first. -/
def load_jobs_from_csv (rows : List Row) : Except Unit (List JobSpec) :=
  match rows with
  | [] => .ok []
  | first :: rest =>
    let normalized := first.map (fun c => pyLower (pyStripWS c))
    if normalized.any isMarker then
      collectAt (normalized.findIdx isMarker) rest
    else
      .ok (add_job (first.headD []) ++ collectCol0 rest)

/-! ## Executor adapter: `run_litterbox` -/

/-- The observable behavior of the `subprocess.run` call inside the
`try` block of `run_litterbox`: normal completion with a return code and
captured output, `TimeoutExpired`, `FileNotFoundError`, or any other
exception. -/
inductive SubprocBehavior where
  | completed (rc : Int) (out err : List Char)
  | timedOut (info : List Char)
  | notFound (info : List Char)
  | unexpected (info : List Char)
deriving DecidableEq, Repr

/-- The `(ok, msg, returncode)` triple returned by `run_litterbox`. -/
structure Outcome where
  ok : Bool
  msg : List Char
  rc : Option Int
deriving DecidableEq, Repr

/-- The name of the temporary per-item input file
(`project_{token}.txt`) that `run_litterbox` creates for
`--project-list`. -/
def listFileName (project : List Char) : Ident :=
  chars "project_" ++ derive_token_from_project project ++ chars ".txt"

/-- `run_litterbox` from the source, over an explicit temp-directory
state (the list of file names present in `tmp_dir`).  The temp list file
is written first; every exit path — dry-run, normal completion, timeout,
missing executable, unexpected exception — removes it before returning
(`finally`, and the explicit unlink in the dry-run branch).  All failure
modes are returned as data; nothing escapes. -/
def run_litterbox (dryRun : Bool) (javaCmd : List Char) (timeout : Nat)
    (project : List Char) (beh : SubprocBehavior) (tmpfs : List Ident) :
    Outcome × List Ident :=
  let listFile := listFileName project
  let fs1 := if tmpfs.contains listFile then tmpfs else tmpfs ++ [listFile]
  if dryRun then
    (⟨true, chars "DRY-RUN: " ++ javaCmd, some 0⟩, fs1.filter (fun f => !(f == listFile)))
  else
    match beh with
    | .completed rc out err =>
      (⟨decide (rc = 0),
        pyStripWS out ++ (if err.isEmpty then [] else '\n' :: pyStripWS err),
        some rc⟩,
       fs1.filter (fun f => !(f == listFile)))
    | .timedOut info =>
      (⟨false, chars "Timeout tras " ++ (toString timeout).toList ++ chars "s: " ++ info, none⟩,
       fs1.filter (fun f => !(f == listFile)))
    | .notFound info =>
      (⟨false, chars "No se encontró ejecutable: " ++ info, none⟩,
       fs1.filter (fun f => !(f == listFile)))
    | .unexpected info =>
      (⟨false, chars "Error inesperado: " ++ info, none⟩,
       fs1.filter (fun f => !(f == listFile)))

/-! ## CSV utilities: `append_csv_rows` and `consolidate_csvs` -/

/-- A CSV file's content as the list of its lines (the line split is
determined by the bytes, so equality of line lists is byte identity). -/
abbrev Line := List Char

/-- `append_csv_rows` from the source, over optional file contents
(`none` = the file does not exist): a missing source is a no-op; a
missing destination receives an exact copy of the source; otherwise
every line of the source except its first is appended. -/
def append_csv_rows (src dst : Option (List Line)) : Option (List Line) :=
  match src with
  | none => dst
  | some s =>
    match dst with
    | none => some s
    | some d => some (d ++ s.drop 1)

/-- The accumulation of per-item shards into a worker-level CSV, as in
`worker_loop`: fold `append_csv_rows` over the shards, starting from a
destination that does not exist yet. -/
def mergeShards (shards : List (List Line)) : Option (List Line) :=
  shards.foldl (fun dst s => append_csv_rows (some s) dst) none

/-- The line loop of `consolidate_csvs`: the first line of each file is
written only while no header has been written yet (`header_written`);
all other lines are always written. -/
def consolidateContent : Bool → List (List Line) → List Line
  | _, [] => []
  | hw, [] :: rest => consolidateContent hw rest
  | false, (h :: tl) :: rest => h :: (tl ++ consolidateContent true rest)
  | true, (_ :: tl) :: rest => tl ++ consolidateContent true rest

/-- Lexicographic `≤` on file names by character code, as Python's
`sorted` compares strings. -/
def clLe : List Char → List Char → Bool
  | [], _ => true
  | _ :: _, [] => false
  | a :: as, b :: bs => if a = b then clLe as bs else decide (a < b)

/-- Insert into a sorted list (worker for `sortBy`). -/
def insLe (le : List Char → List Char → Bool) (x : List Char) :
    List (List Char) → List (List Char)
  | [] => [x]
  | y :: tl => if le x y then x :: y :: tl else y :: insLe le x tl

/-- Deterministic sort of file names (Python `sorted`). -/
def sortBy (le : List Char → List Char → Bool) (l : List (List Char)) :
    List (List Char) :=
  l.foldr (insLe le) []

/-- An output directory: an association list from file names to file
contents. -/
abbrev DirFS := List (Ident × List Line)

/-- Read a file's lines from a directory listing (first entry wins). -/
def lookupFS (n : Ident) (fs : DirFS) : List Line :=
  (((fs.find? (fun e => e.1 == n)).map Prod.snd)).getD []

/-- `consolidate_csvs` from the source: delete the destination if it
already exists, list the files matching the glob pattern sorted by name,
rebuild the destination from scratch with a single header, and return
the new directory state. -/
def consolidate_csvs (pat : Ident → Bool) (destName : Ident) (fs : DirFS) : DirFS :=
  let fs1 := fs.filter (fun e => !(e.1 == destName))
  let names := sortBy clLe ((fs1.map Prod.fst).filter pat)
  let content := consolidateContent false (names.map (fun n => lookupFS n fs1))
  fs1 ++ [(destName, content)]

/-! ## Resumable state store -/

/-- The three durable state files; `none` means the file does not
exist, `some lines` its content. -/
structure StoreFiles where
  ok : Option (List Ident)
  failed : Option (List Ident)
  last : Option Ident
deriving DecidableEq, Repr

/-- `(base_dir / FAILED_FILENAME).unlink(missing_ok=True)`. -/
def unlinkFailed (st : StoreFiles) : StoreFiles := { st with failed := none }

/-- `(base_dir / OK_FILENAME).unlink(missing_ok=True)`. -/
def unlinkOk (st : StoreFiles) : StoreFiles := { st with ok := none }

/-- `(base_dir / FAILED_FILENAME).touch(exist_ok=True)`. -/
def touchFailed (st : StoreFiles) : StoreFiles :=
  { st with failed := some (st.failed.getD []) }

/-- `(base_dir / OK_FILENAME).touch(exist_ok=True)`. -/
def touchOk (st : StoreFiles) : StoreFiles :=
  { st with ok := some (st.ok.getD []) }

/-- The clean-run reset from `main` (the `else` branch when no resume
flag is set): unlink then touch the failed and ok files, in source
order.  The `last_project_processed.txt` file is not touched. -/
def resetForCleanRun (st : StoreFiles) : StoreFiles :=
  touchOk (touchFailed (unlinkOk (unlinkFailed st)))

/-! ## Worker-pool scheduler

The executor is abstracted as an oracle `ex : Ident → Nat → Bool`
giving the success of an item's invocation on a given (1-based) global
attempt number; the scheduler drives items through attempts exactly as
the two dispatch loops in `main` do. -/

/-- One append event on the durable state files: a line appended to
`ok_projects.txt` or to `failed_projects.txt`. -/
inductive Ev where
  | okEv (p : Ident)
  | failEv (p : Ident)
deriving DecidableEq, Repr

/-- Project appended by an ok-event, if any. -/
def okProj : Ev → Option Ident
  | .okEv p => some p
  | .failEv _ => none

/-- Project appended by a fail-event, if any. -/
def failProj : Ev → Option Ident
  | .failEv p => some p
  | .okEv _ => none

/-- Replay a list of append events onto the pair
(ok-file lines, failed-file lines). -/
def applyEvents (st : List Ident × List Ident) : List Ev → List Ident × List Ident
  | [] => st
  | .okEv p :: rest => applyEvents (st.1 ++ [p], st.2) rest
  | .failEv p :: rest => applyEvents (st.1, st.2 ++ [p]) rest

/-- Result of the per-item dispatch loop: `failures_total` as
accumulated by `main`, the multiset of executor invocations (project ×
attempt), the `to_run` list left when the loop exits, and the sequence
of state-file appends. -/
structure PerItemResult where
  failuresTotal : List Ident
  invocations : List (Ident × Nat)
  finalPending : List Ident
  events : List Ev
deriving DecidableEq, Repr

/-- The per-item retry loop of `main` (`while to_run and attempt <=
args.retries`): each round attempts every pending item once, appends
successes to the ok file during collection and failures to the failed
file after the round, extends `failures_total` with the round's
failures, and retries exactly the failed subset.  The remaining budget
(`retries + 1 - attempt`) drives the recursion. -/
def perItemGo (ex : Ident → Nat → Bool) : Nat → Nat → List Ident → PerItemResult
  | _, 0, toRun => ⟨[], [], toRun, []⟩
  | _, _ + 1, [] => ⟨[], [], [], []⟩
  | attempt, budget + 1, p :: ps =>
    let toRun := p :: ps
    let oks := toRun.filter (fun q => ex q attempt)
    let fails := toRun.filter (fun q => !(ex q attempt))
    let rest := perItemGo ex (attempt + 1) budget fails
    ⟨fails ++ rest.failuresTotal,
     toRun.map (fun q => (q, attempt)) ++ rest.invocations,
     rest.finalPending,
     oks.map Ev.okEv ++ fails.map Ev.failEv ++ rest.events⟩

/-- The full per-item dispatch of `main` for a given retry budget. -/
def perItemRun (ex : Ident → Nat → Bool) (retries : Nat) (jobs : List Ident) :
    PerItemResult :=
  perItemGo ex 1 (retries + 1) jobs

/-- The process exit status of `main` in per-item mode: `2` when the
CSV yielded no jobs, else `0` when `failures_total` is empty and `1`
otherwise. -/
def mainExitPerItem (ex : Ident → Nat → Bool) (retries : Nat) (jobs : List Ident) :
    Nat :=
  if jobs.isEmpty then 2
  else if (perItemRun ex retries jobs).failuresTotal.isEmpty then 0 else 1

/-- The round-robin partitioner `chunk_round_robin`, as the loop
`buckets[i % max(1, k)].append(it)` over `enumerate(items)`:
`K` is `max 1 k`, `i` the running index. -/
def rrGo (K : Nat) : Nat → List Ident → List (List Ident) → List (List Ident)
  | _, [], bs => bs
  | i, x :: xs, bs => rrGo K (i + 1) xs (bs.set (i % K) (bs.getD (i % K) [] ++ [x]))

/-- `chunk_round_robin` from the source. -/
def chunk_round_robin (items : List Ident) (k : Nat) : List (List Ident) :=
  rrGo (max 1 k) 0 items (List.replicate (max 1 k) [])

/-- Result of the per-worker dispatch loop: `failures_total` and the
multiset of executor invocations. -/
structure PerWorkerResult where
  failuresTotal : List Ident
  invocations : List (Ident × Nat)
deriving DecidableEq, Repr

/-- The per-worker retry loop of `main` (`--single-csv-per-worker`):
each round every worker processes its bucket sequentially
(`worker_loop`), each worker's failures become that worker's next
bucket (assignment preserved), `failures_total` is extended with every
round's failures, and the loop stops after `retries + 1` rounds or as
soon as every bucket is empty. -/
def perWorkerGo (ex : Ident → Nat → Bool) : Nat → Nat → List (List Ident) →
    PerWorkerResult
  | _, 0, _ => ⟨[], []⟩
  | attempt, budget + 1, buckets =>
    let newBuckets := buckets.map (fun bk => bk.filter (fun q => !(ex q attempt)))
    let inv := buckets.flatten.map (fun q => (q, attempt))
    let fails := newBuckets.flatten
    if newBuckets.all (fun bk => bk.isEmpty) then ⟨fails, inv⟩
    else
      let rest := perWorkerGo ex (attempt + 1) budget newBuckets
      ⟨fails ++ rest.failuresTotal, inv ++ rest.invocations⟩

/-- The full per-worker dispatch of `main`: round-robin partition into
`max 1 maxWorkers` buckets, then the retry loop. -/
def perWorkerRun (ex : Ident → Nat → Bool) (retries maxWorkers : Nat)
    (jobs : List Ident) : PerWorkerResult :=
  perWorkerGo ex 1 (retries + 1) (chunk_round_robin jobs maxWorkers)

/-- Occurrence count of an identity in a list (used for invocation and
membership bookkeeping). -/
def countId (p : Ident) : List Ident → Nat
  | [] => 0
  | q :: tl => (if q = p then 1 else 0) + countId p tl

/-! ## Helper lemmas -/

theorem countId_append (p : Ident) (l1 l2 : List Ident) :
    countId p (l1 ++ l2) = countId p l1 + countId p l2 := by
  induction l1 with
  | nil => simp [countId]
  | cons a tl ih => simp [countId, ih]; omega

theorem countId_filter_le (p : Ident) (pr : Ident → Bool) (l : List Ident) :
    countId p (l.filter pr) ≤ countId p l := by
  induction l with
  | nil => simp [countId]
  | cons a tl ih =>
    by_cases h : pr a = true
    · simp [List.filter_cons, h, countId]; omega
    · simp only [List.filter_cons, Bool.not_eq_true] at *
      simp [h, countId]
      omega

theorem countId_filter_of_true (p : Ident) (pr : Ident → Bool) (l : List Ident)
    (h : pr p = true) : countId p (l.filter pr) = countId p l := by
  induction l with
  | nil => simp
  | cons a tl ih =>
    by_cases ha : a = p
    · subst ha
      simp [List.filter_cons, h, countId, ih]
    · by_cases hpa : pr a = true
      · simp [List.filter_cons, hpa, countId, ha, ih]
      · simp only [Bool.not_eq_true] at hpa
        simp [List.filter_cons, hpa, countId, ha, ih]

theorem countId_pos_mem (p : Ident) (l : List Ident) (h : 0 < countId p l) :
    p ∈ l := by
  induction l with
  | nil => simp [countId] at h
  | cons a tl ih =>
    by_cases ha : a = p
    · subst ha; exact List.mem_cons_self _ _
    · simp [countId, ha] at h
      exact List.mem_cons_of_mem _ (ih h)

theorem countId_flatten_map_filter_of_true (p : Ident) (pr : Ident → Bool)
    (bs : List (List Ident)) (h : pr p = true) :
    countId p ((bs.map (fun bk => bk.filter pr)).flatten) = countId p bs.flatten := by
  induction bs with
  | nil => simp
  | cons b tl ih =>
    simp only [List.map_cons, List.flatten_cons, countId_append, ih,
      countId_filter_of_true p pr b h]

theorem countId_flatten_map_filter_le (p : Ident) (pr : Ident → Bool)
    (bs : List (List Ident)) :
    countId p ((bs.map (fun bk => bk.filter pr)).flatten) ≤ countId p bs.flatten := by
  induction bs with
  | nil => simp
  | cons b tl ih =>
    simp only [List.map_cons, List.flatten_cons, countId_append]
    exact Nat.add_le_add (countId_filter_le p pr b) ih

theorem flatten_eq_nil_of_all_isEmpty (bs : List (List Ident))
    (h : bs.all (fun bk => bk.isEmpty) = true) : bs.flatten = [] := by
  induction bs with
  | nil => simp
  | cons b tl ih =>
    simp only [List.all_cons, Bool.and_eq_true, List.isEmpty_iff] at h
    simp [h.1, ih h.2]

theorem countId_flatten_set (p x : Ident) (bs : List (List Ident)) (j : Nat)
    (hj : j < bs.length) :
    countId p ((bs.set j (bs.getD j [] ++ [x])).flatten) =
      countId p bs.flatten + (if x = p then 1 else 0) := by
  induction bs generalizing j with
  | nil => simp at hj
  | cons b tl ih =>
    cases j with
    | zero =>
      simp [List.set, List.getD, countId_append, countId]
      omega
    | succ j =>
      simp only [List.length_cons, Nat.succ_lt_succ_iff] at hj
      simp only [List.set, List.getD_cons_succ, List.flatten_cons, countId_append,
        ih j hj]
      omega

theorem rrGo_flatten_countId (p : Ident) (K : Nat) (hK : 0 < K) :
    ∀ (xs : List Ident) (i : Nat) (bs : List (List Ident)), bs.length = K →
      countId p ((rrGo K i xs bs).flatten) = countId p bs.flatten + countId p xs := by
  intro xs
  induction xs with
  | nil => intro i bs _; simp [rrGo, countId]
  | cons x tl ih =>
    intro i bs hbs
    have hj : i % K < bs.length := by rw [hbs]; exact Nat.mod_lt _ hK
    have hlen : (bs.set (i % K) (bs.getD (i % K) [] ++ [x])).length = K := by
      rw [List.length_set, hbs]
    simp only [rrGo, ih (i + 1) _ hlen, countId_flatten_set p x bs _ hj, countId]
    omega

theorem chunk_round_robin_countId (p : Ident) (items : List Ident) (k : Nat) :
    countId p (chunk_round_robin items k).flatten = countId p items := by
  have h0 : countId p ((List.replicate (max 1 k) ([] : List Ident)).flatten) = 0 := by
    induction (max 1 k) with
    | zero => simp [countId]
    | succ n ih => simpa [List.replicate_succ, countId_append] using ih
  have := rrGo_flatten_countId p (max 1 k) (by omega) items 0
    (List.replicate (max 1 k) []) (by simp)
  simpa [chunk_round_robin, countId, h0] using this

theorem isPre_append (p a b : List Char) (h : p.isPrefixOf a = true) :
    p.isPrefixOf (a ++ b) = true := by
  induction p generalizing a with
  | nil => simp [List.isPrefixOf]
  | cons c ps ih =>
    cases a with
    | nil => simp [List.isPrefixOf] at h
    | cons d as =>
      simp only [List.isPrefixOf, Bool.and_eq_true] at h
      simp only [List.cons_append, List.isPrefixOf, Bool.and_eq_true]
      exact ⟨h.1, ih as h.2⟩

theorem isPre_cons_false (c d : Char) (ps tl : List Char) (h : (c == d) = false) :
    (c :: ps).isPrefixOf (d :: tl) = false := by
  simp [List.isPrefixOf, h]

theorem applyEvents_fst (evs : List Ev) :
    ∀ st : List Ident × List Ident,
      (applyEvents st evs).1 = st.1 ++ evs.filterMap okProj := by
  induction evs with
  | nil => intro st; simp [applyEvents]
  | cons e rest ih =>
    intro st
    cases e with
    | okEv p => simp [applyEvents, ih, List.filterMap_cons, okProj]
    | failEv p => simp [applyEvents, ih, List.filterMap_cons, okProj]

theorem applyEvents_snd (evs : List Ev) :
    ∀ st : List Ident × List Ident,
      (applyEvents st evs).2 = st.2 ++ evs.filterMap failProj := by
  induction evs with
  | nil => intro st; simp [applyEvents]
  | cons e rest ih =>
    intro st
    cases e with
    | okEv p => simp [applyEvents, ih, List.filterMap_cons, failProj]
    | failEv p => simp [applyEvents, ih, List.filterMap_cons, failProj]

theorem filterMap_okProj_okEvs (l : List Ident) :
    (l.map Ev.okEv).filterMap okProj = l := by
  induction l with
  | nil => simp
  | cons a tl ih => simp [List.filterMap_cons, okProj, ih]

theorem filterMap_okProj_failEvs (l : List Ident) :
    (l.map Ev.failEv).filterMap okProj = [] := by
  induction l with
  | nil => simp
  | cons a tl ih => simp [List.filterMap_cons, okProj, ih]

theorem filterMap_failProj_okEvs (l : List Ident) :
    (l.map Ev.okEv).filterMap failProj = [] := by
  induction l with
  | nil => simp
  | cons a tl ih => simp [List.filterMap_cons, failProj, ih]

theorem filterMap_failProj_failEvs (l : List Ident) :
    (l.map Ev.failEv).filterMap failProj = l := by
  induction l with
  | nil => simp
  | cons a tl ih => simp [List.filterMap_cons, failProj, ih]

theorem perItemGo_nil_failuresTotal (ex : Ident → Nat → Bool) (a b : Nat) :
    (perItemGo ex a b []).failuresTotal = [] := by
  cases b <;> rfl

theorem perItemGo_nil_events (ex : Ident → Nat → Bool) (a b : Nat) :
    (perItemGo ex a b []).events = [] := by
  cases b <;> rfl


theorem map_fst_pairs (a : Nat) (l : List Ident) :
    (l.map (fun q => (q, a))).map Prod.fst = l := by
  induction l with
  | nil => rfl
  | cons x tl ih => simp only [List.map_cons, ih]

theorem perItemGo_inv_le (ex : Ident → Nat → Bool) (p : Ident) :
    ∀ (b a : Nat) (toRun : List Ident),
      countId p ((perItemGo ex a b toRun).invocations.map Prod.fst) ≤
        countId p toRun * b := by
  intro b
  induction b with
  | zero => intro a toRun; simp [perItemGo, countId]
  | succ b ih =>
    intro a toRun
    cases toRun with
    | nil => simp [perItemGo, countId]
    | cons q qs =>
      simp only [perItemGo, List.map_append, countId_append, map_fst_pairs]
      have h2 := ih (a + 1) ((q :: qs).filter (fun x => !(ex x a)))
      have h3 := countId_filter_le p (fun x => !(ex x a)) (q :: qs)
      have : countId p ((q :: qs).filter (fun x => !(ex x a))) * b ≤
          countId p (q :: qs) * b := Nat.mul_le_mul_right b h3
      rw [Nat.mul_succ]
      omega

theorem perItemGo_alwaysFail (ex : Ident → Nat → Bool) (p : Ident)
    (hfail : ∀ n, ex p n = false) :
    ∀ (b a : Nat) (toRun : List Ident), countId p toRun = 1 →
      countId p ((perItemGo ex a b toRun).invocations.map Prod.fst) = b ∧
      (1 ≤ b → p ∈ (perItemGo ex a b toRun).failuresTotal) := by
  intro b
  induction b with
  | zero => intro a toRun _; simp [perItemGo, countId]
  | succ b ih =>
    intro a toRun hcnt
    cases toRun with
    | nil => simp [countId] at hcnt
    | cons q qs =>
      have hpr : (fun x => !(ex x a)) p = true := by simp [hfail a]
      have hfcnt : countId p ((q :: qs).filter (fun x => !(ex x a))) = 1 := by
        rw [countId_filter_of_true p _ _ hpr]; exact hcnt
      have hmem : p ∈ (q :: qs).filter (fun x => !(ex x a)) :=
        countId_pos_mem _ _ (by omega)
      obtain ⟨hrec, _⟩ := ih (a + 1) _ hfcnt
      constructor
      · simp only [perItemGo, List.map_append, countId_append, map_fst_pairs, hrec]
        omega
      · intro _
        simp only [perItemGo]
        exact List.mem_append_left _ hmem

theorem perItemGo_pending_failures (ex : Ident → Nat → Bool) :
    ∀ (b a : Nat) (toRun : List Ident),
      (perItemGo ex a (b + 1) toRun).finalPending ≠ [] →
      (perItemGo ex a (b + 1) toRun).failuresTotal ≠ [] := by
  intro b
  induction b with
  | zero =>
    intro a toRun hp
    cases toRun with
    | nil => simp [perItemGo] at hp
    | cons q qs =>
      simp only [perItemGo] at hp ⊢
      simpa [perItemGo_nil_failuresTotal] using hp
  | succ b ih =>
    intro a toRun hp
    cases toRun with
    | nil => simp [perItemGo] at hp
    | cons q qs =>
      simp only [perItemGo] at hp ⊢
      have := ih (a + 1) ((q :: qs).filter (fun x => !(ex x a))) hp
      intro hcontra
      exact this (List.append_eq_nil.mp hcontra).2

theorem perWorkerGo_inv_le (ex : Ident → Nat → Bool) (p : Ident) :
    ∀ (b a : Nat) (buckets : List (List Ident)),
      countId p ((perWorkerGo ex a b buckets).invocations.map Prod.fst) ≤
        countId p buckets.flatten * b := by
  intro b
  induction b with
  | zero => intro a buckets; simp [perWorkerGo, countId]
  | succ b ih =>
    intro a buckets
    simp only [perWorkerGo]
    by_cases hall : (buckets.map (fun bk => bk.filter (fun q => !(ex q a)))).all
        (fun bk => bk.isEmpty) = true
    · rw [if_pos hall]
      simp only [map_fst_pairs]
      calc countId p buckets.flatten = countId p buckets.flatten * 1 := by omega
        _ ≤ countId p buckets.flatten * (b + 1) :=
            Nat.mul_le_mul_left _ (by omega)
    · rw [if_neg hall]
      simp only [List.map_append, countId_append, map_fst_pairs]
      have h2 := ih (a + 1) (buckets.map (fun bk => bk.filter (fun q => !(ex q a))))
      have h3 := countId_flatten_map_filter_le p (fun q => !(ex q a)) buckets
      have : countId p (buckets.map (fun bk =>
          bk.filter (fun q => !(ex q a)))).flatten * b ≤
          countId p buckets.flatten * b := Nat.mul_le_mul_right b h3
      rw [Nat.mul_succ]
      omega

theorem perWorkerGo_alwaysFail (ex : Ident → Nat → Bool) (p : Ident)
    (hfail : ∀ n, ex p n = false) :
    ∀ (b a : Nat) (buckets : List (List Ident)), countId p buckets.flatten = 1 →
      countId p ((perWorkerGo ex a b buckets).invocations.map Prod.fst) = b ∧
      (1 ≤ b → p ∈ (perWorkerGo ex a b buckets).failuresTotal) := by
  intro b
  induction b with
  | zero => intro a buckets _; simp [perWorkerGo, countId]
  | succ b ih =>
    intro a buckets hcnt
    have hpr : (fun x => !(ex x a)) p = true := by simp [hfail a]
    have hfcnt : countId p (buckets.map (fun bk =>
        bk.filter (fun q => !(ex q a)))).flatten = 1 := by
      rw [countId_flatten_map_filter_of_true p _ _ hpr]; exact hcnt
    have hnall : ¬ ((buckets.map (fun bk => bk.filter (fun q => !(ex q a)))).all
        (fun bk => bk.isEmpty) = true) := by
      intro hall
      rw [flatten_eq_nil_of_all_isEmpty _ hall] at hfcnt
      simp [countId] at hfcnt
    have hmem : p ∈ (buckets.map (fun bk => bk.filter (fun q => !(ex q a)))).flatten :=
      countId_pos_mem _ _ (by omega)
    obtain ⟨hrec, _⟩ := ih (a + 1) _ hfcnt
    constructor
    · simp only [perWorkerGo]
      rw [if_neg hnall]
      simp only [List.map_append, countId_append, map_fst_pairs, hrec]
      omega
    · intro _
      simp only [perWorkerGo]
      rw [if_neg hnall]
      exact List.mem_append_left _ hmem

theorem mergeShards_foldl (rest : List (List Line)) :
    ∀ d : List Line,
      rest.foldl (fun dst s => append_csv_rows (some s) dst) (some d) =
        some (d ++ (rest.map (fun s => s.drop 1)).flatten) := by
  induction rest with
  | nil => intro d; simp
  | cons s tl ih =>
    intro d
    rw [List.foldl_cons]
    rw [show append_csv_rows (some s) (some d) = some (d ++ s.drop 1) from rfl]
    rw [ih (d ++ s.drop 1)]
    simp [List.append_assoc]

theorem filter_self_idem {α : Type} (pr : α → Bool) (l : List α) :
    (l.filter pr).filter pr = l.filter pr := by
  induction l with
  | nil => rfl
  | cons a tl ih =>
    by_cases h : pr a = true
    · simp [List.filter_cons, h, ih]
    · simp only [Bool.not_eq_true] at h
      simp [List.filter_cons, h, ih]

theorem filter_not_of_all (pr : Ident → Bool) (l : List Ident)
    (h : l.all pr = true) : l.filter (fun x => !(pr x)) = [] := by
  induction l with
  | nil => rfl
  | cons a tl ih =>
    simp only [List.all_cons, Bool.and_eq_true] at h
    simp [List.filter_cons, h.1, ih h.2]

theorem ite_isEmpty_ne {l : List Ident} (h : l ≠ []) :
    (if l.isEmpty = true then (0 : Nat) else 1) = 1 := by
  have hf : l.isEmpty = false := by
    cases l with
    | nil => exact absurd rfl h
    | cons a t => rfl
  rw [hf]
  simp

theorem run_timedOut_msg (cmd : List Char) (t : Nat) (p : Ident) (info : List Char)
    (fs : List Ident) :
    (run_litterbox false cmd t p (.timedOut info) fs).1.msg =
      chars "Timeout tras " ++ ((toString t).toList ++ (chars "s: " ++ info)) := by
  simp [run_litterbox, List.append_assoc]

theorem run_notFound_msg (cmd : List Char) (t : Nat) (p : Ident) (info : List Char)
    (fs : List Ident) :
    (run_litterbox false cmd t p (.notFound info) fs).1.msg =
      chars "No se encontró ejecutable: " ++ info := rfl

theorem run_unexpected_msg (cmd : List Char) (t : Nat) (p : Ident) (info : List Char)
    (fs : List Ident) :
    (run_litterbox false cmd t p (.unexpected info) fs).1.msg =
      chars "Error inesperado: " ++ info := rfl

/-! ## Claims -/

/-- C1 (counterexample): the claim says that an item failing on an early
attempt but succeeding on a later retry does not by itself cause a
non-zero exit status.  With one job, a retry budget of 1, and an
executor that fails attempt 1 and succeeds attempt 2, the run ends with
no pending item (the job ultimately succeeded), yet the exit status is 1
because `failures_total` accumulated the first-attempt failure. -/
theorem c1_exit_status_counterexample :
    mainExitPerItem (fun _ n => decide (n ≠ 1)) 1 [chars "a"] = 1 ∧
    (perItemRun (fun _ n => decide (n ≠ 1)) 1 [chars "a"]).finalPending = [] := by
  decide

/-- C1 (amended): the exit status is 2 exactly when the input yielded no
items; otherwise it is 0 exactly when every item succeeded on its very
first attempt, and 1 as soon as any attempt of any item failed — in
particular it is 1 whenever some item is still pending (ultimately
failed) when the retry loop exits. -/
theorem c1_exit_status_amended (ex : Ident → Nat → Bool) (r : Nat)
    (jobs : List Ident) (h : jobs ≠ []) :
    mainExitPerItem ex r [] = 2 ∧
    mainExitPerItem ex r jobs = (if jobs.all (fun p => ex p 1) then 0 else 1) ∧
    ((perItemRun ex r jobs).finalPending ≠ [] → mainExitPerItem ex r jobs = 1) := by
  obtain ⟨q, qs, rfl⟩ := List.exists_cons_of_ne_nil h
  refine ⟨rfl, ?_, ?_⟩
  · simp only [mainExitPerItem, perItemRun, List.isEmpty_cons, if_false,
      Bool.false_eq_true]
    by_cases hall : (q :: qs).all (fun p => ex p 1) = true
    · rw [if_pos hall]
      have hfl : (q :: qs).filter (fun x => !(ex x 1)) = [] :=
        filter_not_of_all _ _ hall
      simp only [perItemGo, hfl, perItemGo_nil_failuresTotal, List.nil_append,
        List.isEmpty_nil, if_true]
    · rw [if_neg hall]
      simp only [List.all_eq_true, Bool.not_eq_true] at hall
      push_neg at hall
      obtain ⟨x, hx, hxf⟩ := hall
      have hxf' : ex x 1 = false := by
        cases hex : ex x 1 with
        | true => exact absurd hex hxf
        | false => rfl
      have hmem : x ∈ (q :: qs).filter (fun y => !(ex y 1)) :=
        List.mem_filter.mpr ⟨hx, by simp [hxf']⟩
      have hne : (q :: qs).filter (fun y => !(ex y 1)) ≠ [] := by
        intro hcon; rw [hcon] at hmem; exact absurd hmem (List.not_mem_nil x)
      simp only [perItemGo]
      exact ite_isEmpty_ne (fun hcon => hne (List.append_eq_nil.mp hcon).1)
  · intro hp
    have hft := perItemGo_pending_failures ex r 1 (q :: qs) hp
    simp only [mainExitPerItem, perItemRun, List.isEmpty_cons, if_false,
      Bool.false_eq_true]
    exact ite_isEmpty_ne hft

/-- C1 (witness): the amended statement instantiated for a singleton job
list and an always-succeeding executor. -/
theorem c1_exit_status_witness :
    ([chars "a"] : List Ident) ≠ [] ∧
    (mainExitPerItem (fun _ _ => true) 0 [] = 2 ∧
     mainExitPerItem (fun _ _ => true) 0 [chars "a"] =
       (if ([chars "a"] : List Ident).all (fun _ => true) then 0 else 1) ∧
     ((perItemRun (fun _ _ => true) 0 [chars "a"]).finalPending ≠ [] →
       mainExitPerItem (fun _ _ => true) 0 [chars "a"] = 1)) :=
  ⟨by decide, c1_exit_status_amended (fun _ _ => true) 0 [chars "a"] (by decide)⟩

/-- C2 (counterexample): the claim says an item that fails on one
attempt and succeeds on a later one is never in the done file and the
failed file simultaneously.  With retry budget 1 and an executor failing
only attempt 1, after replaying every append of the run the identity is
in both files. -/
theorem c2_disjointness_counterexample :
    chars "a" ∈
      (applyEvents ([], []) (perItemRun (fun _ n => decide (n ≠ 1)) 1 [chars "a"]).events).1 ∧
    chars "a" ∈
      (applyEvents ([], []) (perItemRun (fun _ n => decide (n ≠ 1)) 1 [chars "a"]).events).2 := by
  decide

/-- C2 (amended): in a clean run with retry budget 0 (each identity's
outcome a function of identity and attempt), the ok-file and failed-file
line sets are disjoint at every observation point, i.e. after every
prefix of the append-event sequence. -/
theorem c2_disjointness_amended (ex : Ident → Nat → Bool) (jobs : List Ident)
    (n : Nat) (p : Ident)
    (h : p ∈ (applyEvents ([], []) ((perItemRun ex 0 jobs).events.take n)).1) :
    p ∉ (applyEvents ([], []) ((perItemRun ex 0 jobs).events.take n)).2 := by
  intro hf
  rw [applyEvents_fst] at h
  rw [applyEvents_snd] at hf
  simp only [List.nil_append] at h hf
  obtain ⟨e1, he1, hpe1⟩ := List.mem_filterMap.mp h
  obtain ⟨e2, he2, hpe2⟩ := List.mem_filterMap.mp hf
  have he1' : e1 ∈ (perItemRun ex 0 jobs).events := List.take_subset n _ he1
  have he2' : e2 ∈ (perItemRun ex 0 jobs).events := List.take_subset n _ he2
  cases jobs with
  | nil =>
    rw [perItemRun, perItemGo_nil_events] at he1'
    exact absurd he1' (List.not_mem_nil e1)
  | cons q qs =>
    rw [perItemRun] at he1' he2'
    simp only [perItemGo, perItemGo_nil_events, List.append_nil] at he1' he2'
    have hok : p ∈ (q :: qs).filter (fun y => ex y 1) := by
      rcases List.mem_append.mp he1' with hin | hin
      · obtain ⟨x, hx, hxe⟩ := List.mem_map.mp hin
        cases hxe
        cases Option.some.inj hpe1
        exact hx
      · obtain ⟨x, _, hxe⟩ := List.mem_map.mp hin
        cases hxe
        exact absurd hpe1 (by simp [okProj])
    have hfail : p ∈ (q :: qs).filter (fun y => !(ex y 1)) := by
      rcases List.mem_append.mp he2' with hin | hin
      · obtain ⟨x, _, hxe⟩ := List.mem_map.mp hin
        cases hxe
        exact absurd hpe2 (by simp [failProj])
      · obtain ⟨x, hx, hxe⟩ := List.mem_map.mp hin
        cases hxe
        cases Option.some.inj hpe2
        exact hx
    have h1 := (List.mem_filter.mp hok).2
    have h2 := (List.mem_filter.mp hfail).2
    rw [h1] at h2
    exact absurd h2 (by simp)

/-- C2 (witness): the amended statement instantiated with one job, an
always-succeeding executor, and the observation point after its single
ok-append. -/
theorem c2_disjointness_witness :
    chars "a" ∈
      (applyEvents ([], []) ((perItemRun (fun _ _ => true) 0 [chars "a"]).events.take 1)).1 ∧
    chars "a" ∉
      (applyEvents ([], []) ((perItemRun (fun _ _ => true) 0 [chars "a"]).events.take 1)).2 :=
  ⟨by decide, c2_disjointness_amended (fun _ _ => true) [chars "a"] 1 (chars "a") (by decide)⟩

/-- C3 (counterexample): the claim says the clean-run reset deletes the
lastProcessed file.  Starting from a state where all three files exist,
the reset truncates the done and failed files but leaves
`last_project_processed.txt` in place with its old content. -/
theorem c3_reset_counterexample :
    (resetForCleanRun ⟨some [chars "x"], some [chars "y"], some (chars "z")⟩).ok
        = some [] ∧
    (resetForCleanRun ⟨some [chars "x"], some [chars "y"], some (chars "z")⟩).failed
        = some [] ∧
    ¬ (resetForCleanRun ⟨some [chars "x"], some [chars "y"], some (chars "z")⟩).last
        = none := by
  decide

/-- C3 (amended): the clean-run reset truncates both the done file and
the failed file to empty (both exist and are empty afterwards,
regardless of prior content), and leaves the lastProcessed file exactly
as it was — it is not deleted. -/
theorem c3_reset_amended (st : StoreFiles) :
    resetForCleanRun st = ⟨some [], some [], st.last⟩ := rfl

/-- C4 (counterexample): the claim says the derived token is never empty
for an identity that is non-empty after trimming.  The identity `.` is
non-empty after trimming, yet its path name is empty and the derivation
returns the empty string. -/
theorem c4_token_counterexample :
    pyStripWS (chars ".") ≠ [] ∧ derive_token_from_project (chars ".") = [] := by
  decide

/-- C4 (amended): for every identity whose final path component is
non-empty, the derived token is non-empty; when the sanitation pipeline
yields an empty string, the derivation falls back to the path name
`Path(project).name` (the final path component), not to the full
identity. -/
theorem c4_token_amended (p : List Char) (h : pathName p ≠ []) :
    derive_token_from_project p ≠ [] ∧
    ((sanitizedToken p).isEmpty = true → derive_token_from_project p = pathName p) := by
  constructor
  · by_cases hs : (sanitizedToken p).isEmpty = true
    · rw [derive_token_from_project, if_pos hs]
      exact h
    · rw [derive_token_from_project, if_neg hs]
      intro hcon
      exact hs (by rw [hcon]; rfl)
  · intro hs
    rw [derive_token_from_project, if_pos hs]

/-- C4 (witness): the amended statement instantiated at `abc/...`, whose
path name is `...` and whose sanitized token is empty, so the fallback
to the path name fires. -/
theorem c4_token_witness :
    pathName (chars "abc/...") ≠ [] ∧
    (derive_token_from_project (chars "abc/...") ≠ [] ∧
     ((sanitizedToken (chars "abc/...")).isEmpty = true →
       derive_token_from_project (chars "abc/...") = pathName (chars "abc/..."))) :=
  ⟨by decide, c4_token_amended (chars "abc/...") (by decide)⟩

/-- C5 (counterexample): the claim says the missing-binary failure mode
yields a message carrying the prefix `ExecutableNotFound`.  The actual
message is `No se encontró ejecutable: ...`, which does not start with
that label. -/
theorem c5_message_counterexample :
    (run_litterbox false (chars "java") 3 (chars "p")
        (.notFound (chars "x")) []).1.ok = false ∧
    (chars "ExecutableNotFound").isPrefixOf
      (run_litterbox false (chars "java") 3 (chars "p")
        (.notFound (chars "x")) []).1.msg = false := by
  decide

/-- C5 (amended): the executor adapter returns every failure mode as
data — a failed Outcome — and the three modes carry pairwise
distinguishing message prefixes: `Timeout tras` for a timeout,
`No se encontró ejecutable:` for a missing binary, and
`Error inesperado:` for any other exception; no mode's message starts
with another mode's prefix. -/
theorem c5_message_amended (cmd info : List Char) (t : Nat) (p : Ident)
    (fs : List Ident) :
    ((run_litterbox false cmd t p (.timedOut info) fs).1.ok = false ∧
     (chars "Timeout tras").isPrefixOf
       (run_litterbox false cmd t p (.timedOut info) fs).1.msg = true ∧
     (chars "No se encontró ejecutable:").isPrefixOf
       (run_litterbox false cmd t p (.timedOut info) fs).1.msg = false ∧
     (chars "Error inesperado:").isPrefixOf
       (run_litterbox false cmd t p (.timedOut info) fs).1.msg = false) ∧
    ((run_litterbox false cmd t p (.notFound info) fs).1.ok = false ∧
     (chars "No se encontró ejecutable:").isPrefixOf
       (run_litterbox false cmd t p (.notFound info) fs).1.msg = true ∧
     (chars "Timeout tras").isPrefixOf
       (run_litterbox false cmd t p (.notFound info) fs).1.msg = false ∧
     (chars "Error inesperado:").isPrefixOf
       (run_litterbox false cmd t p (.notFound info) fs).1.msg = false) ∧
    ((run_litterbox false cmd t p (.unexpected info) fs).1.ok = false ∧
     (chars "Error inesperado:").isPrefixOf
       (run_litterbox false cmd t p (.unexpected info) fs).1.msg = true ∧
     (chars "Timeout tras").isPrefixOf
       (run_litterbox false cmd t p (.unexpected info) fs).1.msg = false ∧
     (chars "No se encontró ejecutable:").isPrefixOf
       (run_litterbox false cmd t p (.unexpected info) fs).1.msg = false) := by
  refine ⟨⟨rfl, ?_, ?_, ?_⟩, ⟨rfl, ?_, ?_, ?_⟩, ⟨rfl, ?_, ?_, ?_⟩⟩
  · rw [run_timedOut_msg]
    exact isPre_append _ _ _ (by decide)
  · rw [run_timedOut_msg,
      show chars "Timeout tras " = 'T' :: chars "imeout tras " from by decide,
      List.cons_append,
      show chars "No se encontró ejecutable:" =
        'N' :: chars "o se encontró ejecutable:" from by decide]
    exact isPre_cons_false _ _ _ _ (by decide)
  · rw [run_timedOut_msg,
      show chars "Timeout tras " = 'T' :: chars "imeout tras " from by decide,
      List.cons_append,
      show chars "Error inesperado:" = 'E' :: chars "rror inesperado:" from by decide]
    exact isPre_cons_false _ _ _ _ (by decide)
  · rw [run_notFound_msg]
    exact isPre_append _ _ _ (by decide)
  · rw [run_notFound_msg,
      show chars "No se encontró ejecutable: " =
        'N' :: chars "o se encontró ejecutable: " from by decide,
      List.cons_append,
      show chars "Timeout tras" = 'T' :: chars "imeout tras" from by decide]
    exact isPre_cons_false _ _ _ _ (by decide)
  · rw [run_notFound_msg,
      show chars "No se encontró ejecutable: " =
        'N' :: chars "o se encontró ejecutable: " from by decide,
      List.cons_append,
      show chars "Error inesperado:" = 'E' :: chars "rror inesperado:" from by decide]
    exact isPre_cons_false _ _ _ _ (by decide)
  · rw [run_unexpected_msg]
    exact isPre_append _ _ _ (by decide)
  · rw [run_unexpected_msg,
      show chars "Error inesperado: " = 'E' :: chars "rror inesperado: " from by decide,
      List.cons_append,
      show chars "Timeout tras" = 'T' :: chars "imeout tras" from by decide]
    exact isPre_cons_false _ _ _ _ (by decide)
  · rw [run_unexpected_msg,
      show chars "Error inesperado: " = 'E' :: chars "rror inesperado: " from by decide,
      List.cons_append,
      show chars "No se encontró ejecutable:" =
        'N' :: chars "o se encontró ejecutable:" from by decide]
    exact isPre_cons_false _ _ _ _ (by decide)

/-- C6: under both dispatch strategies every identity occurring once in
the job list is attempted at most `retries + 1` times (and, with
duplicates, at most its occurrence count times `retries + 1`); for an
executor injected to always fail a given identity occurring once, that
identity is in the final failed list and the executor is invoked exactly
`retries + 1` times for it — never more. -/
theorem c6_retry_budget (ex : Ident → Nat → Bool) (r k : Nat)
    (jobs : List Ident) (p : Ident) :
    countId p ((perItemRun ex r jobs).invocations.map Prod.fst) ≤
      countId p jobs * (r + 1) ∧
    countId p ((perWorkerRun ex r k jobs).invocations.map Prod.fst) ≤
      countId p jobs * (r + 1) ∧
    (countId p jobs = 1 → (∀ n, ex p n = false) →
      countId p ((perItemRun ex r jobs).invocations.map Prod.fst) = r + 1 ∧
      p ∈ (perItemRun ex r jobs).failuresTotal ∧
      countId p ((perWorkerRun ex r k jobs).invocations.map Prod.fst) = r + 1 ∧
      p ∈ (perWorkerRun ex r k jobs).failuresTotal) := by
  refine ⟨perItemGo_inv_le ex p (r + 1) 1 jobs, ?_, ?_⟩
  · have hb := perWorkerGo_inv_le ex p (r + 1) 1 (chunk_round_robin jobs k)
    rwa [chunk_round_robin_countId] at hb
  · intro h1 h2
    obtain ⟨hi1, hi2⟩ := perItemGo_alwaysFail ex p h2 (r + 1) 1 jobs h1
    obtain ⟨hw1, hw2⟩ := perWorkerGo_alwaysFail ex p h2 (r + 1) 1
      (chunk_round_robin jobs k) (by rw [chunk_round_robin_countId]; exact h1)
    exact ⟨hi1, hi2 (by omega), hw1, hw2 (by omega)⟩

/-- C6 (witness): retry budget 1, an always-failing executor, one job;
both strategies invoke the executor exactly twice and report the job
failed. -/
theorem c6_retry_budget_witness :
    countId (chars "a") [chars "a"] = 1 ∧
    (countId (chars "a")
        ((perItemRun (fun _ _ => false) 1 [chars "a"]).invocations.map Prod.fst)
        = 2 ∧
     chars "a" ∈ (perItemRun (fun _ _ => false) 1 [chars "a"]).failuresTotal ∧
     countId (chars "a")
        ((perWorkerRun (fun _ _ => false) 1 2 [chars "a"]).invocations.map Prod.fst)
        = 2 ∧
     chars "a" ∈ (perWorkerRun (fun _ _ => false) 1 2 [chars "a"]).failuresTotal) :=
  ⟨by decide,
   (c6_retry_budget (fun _ _ => false) 1 2 [chars "a"] (chars "a")).2.2
     (by decide) (fun _ => rfl)⟩

/-- C7: consolidation is idempotent — running `consolidate_csvs` again
over the directory state it produced, with the shard files unchanged,
yields exactly the same directory state (in particular a byte-identical
consolidated file), because the existing destination is deleted before
the glob and the result fully rebuilt. -/
theorem c7_consolidate_idempotent (pat : Ident → Bool) (destName : Ident)
    (fs : DirFS) :
    consolidate_csvs pat destName (consolidate_csvs pat destName fs) =
      consolidate_csvs pat destName fs := by
  simp only [consolidate_csvs, List.filter_append, filter_self_idem,
    List.filter_cons, List.filter_nil, beq_self_eq_true, Bool.not_true,
    Bool.false_eq_true, if_false, List.append_nil]

/-- C9: the temporary per-item input file passed to the external worker
does not exist in the temp directory after the task finishes, on every
exit path — dry-run, normal completion (any return code), timeout,
missing executable, and unexpected exception alike. -/
theorem c9_tmpfile_cleanup (dryRun : Bool) (cmd : List Char) (t : Nat)
    (p : Ident) (beh : SubprocBehavior) (fs : List Ident) :
    listFileName p ∉ (run_litterbox dryRun cmd t p beh fs).2 := by
  cases dryRun <;> cases beh <;>
    simp [run_litterbox, List.mem_filter]

theorem collectCol0_eq (rows : List Row) :
    collectCol0 rows =
      ((rows.filter (fun r => !r.isEmpty)).map (fun r => add_job (r.headD []))).flatten := by
  induction rows with
  | nil => rfl
  | cons row rest ih =>
    by_cases h : row.isEmpty = true
    · simp only [collectCol0]
      rw [if_pos h, ih]
      simp [List.filter_cons, h]
    · simp only [collectCol0]
      rw [if_neg h, ih]
      simp only [Bool.not_eq_true] at h
      simp [List.filter_cons, h]

theorem collectAt_eq (idx : Nat) (rows : List Row)
    (h : ∀ r ∈ rows, r.isEmpty = false → idx < r.length) :
    collectAt idx rows =
      .ok (((rows.filter (fun r => !r.isEmpty)).map
        (fun r => add_job (r.getD idx []))).flatten) := by
  induction rows with
  | nil => rfl
  | cons row rest ih =>
    have hrest : ∀ r ∈ rest, r.isEmpty = false → idx < r.length :=
      fun r hr => h r (List.mem_cons_of_mem _ hr)
    by_cases hre : row.isEmpty = true
    · simp only [collectAt]
      rw [if_pos hre, ih hrest]
      simp [List.filter_cons, hre]
    · have hfalse : row.isEmpty = false := by
        cases hx : row.isEmpty with
        | true => exact absurd hx hre
        | false => rfl
      have hlen : idx < row.length := h row (List.mem_cons_self _ _) hfalse
      have hget : row.get? idx = some (row.getD idx []) := by
        cases hg : row.get? idx with
        | none =>
          have := List.get?_eq_none.mp hg
          omega
        | some c =>
          rw [List.getD_eq_getElem?_getD, ← List.get?_eq_getElem?, hg]
          rfl
      simp only [collectAt]
      rw [if_neg hre, hget, ih hrest]
      simp [List.filter_cons, hfalse]

theorem flatten_add_job_projects (cells : List (List Char)) :
    ((cells.map add_job).flatten).map JobSpec.project =
      (cells.map sanitizeCell).filter (fun s => !s.isEmpty) := by
  induction cells with
  | nil => rfl
  | cons c tl ih =>
    by_cases h : (sanitizeCell c).isEmpty = true
    · simp [add_job, h, ih, List.filter_cons]
    · simp [add_job, h, ih, List.filter_cons]

/-- C8 (counterexample): the claim quantifies over every tabular input,
but when the detected header column index is beyond the end of a
shorter, non-empty data row, the loader raises `IndexError` (modelled
as `Except.error`) instead of returning the identity list. -/
theorem c8_loader_counterexample :
    load_jobs_from_csv [[chars "x", chars "project"], [chars "a"]] =
      .error () := rfl

/-- C8 (amended): when no first-row cell contains a project marker,
every row including the first contributes column 0; when a marker is
found, the first matching column of every later row is read, provided
every non-empty data row is long enough — and in both cases the
identities returned are exactly the sanitized non-blank cells, in input
order, duplicates preserved, blank and whitespace-only entries
dropped. -/
theorem c8_loader_amended (first : Row) (rest : List Row)
    (cells : List (List Char)) :
    ((first.map (fun c => pyLower (pyStripWS c))).any isMarker = false →
      load_jobs_from_csv (first :: rest) =
        .ok (add_job (first.headD []) ++
          ((rest.filter (fun r => !r.isEmpty)).map
            (fun r => add_job (r.headD []))).flatten)) ∧
    ((first.map (fun c => pyLower (pyStripWS c))).any isMarker = true →
      (∀ r ∈ rest, r.isEmpty = false →
        (first.map (fun c => pyLower (pyStripWS c))).findIdx isMarker < r.length) →
      load_jobs_from_csv (first :: rest) =
        .ok (((rest.filter (fun r => !r.isEmpty)).map
          (fun r => add_job (r.getD
            ((first.map (fun c => pyLower (pyStripWS c))).findIdx isMarker) []))).flatten)) ∧
    (((cells.map add_job).flatten).map JobSpec.project =
      (cells.map sanitizeCell).filter (fun s => !s.isEmpty)) := by
  refine ⟨?_, ?_, flatten_add_job_projects cells⟩
  · intro h
    simp only [load_jobs_from_csv]
    rw [if_neg (by rw [h]; exact Bool.false_ne_true), collectCol0_eq]
  · intro h hlen
    simp only [load_jobs_from_csv]
    rw [if_pos h]
    exact collectAt_eq _ rest hlen

/-- C8 (witness): the header branch instantiated on a rectangular input
with a blank row and a whitespace-only cell, both dropped. -/
theorem c8_loader_witness :
    (([chars "id", chars "Project"] : Row).map
      (fun c => pyLower (pyStripWS c))).any isMarker = true ∧
    (∀ r ∈ [[chars "x", chars "a"], ([] : Row), [chars "y", chars " "]],
      r.isEmpty = false →
      (([chars "id", chars "Project"] : Row).map
        (fun c => pyLower (pyStripWS c))).findIdx isMarker < r.length) ∧
    load_jobs_from_csv
        [[chars "id", chars "Project"], [chars "x", chars "a"], [],
          [chars "y", chars " "]] =
      .ok ((([[chars "x", chars "a"], ([] : Row), [chars "y", chars " "]].filter
          (fun r => !r.isEmpty)).map (fun r =>
            add_job (r.getD ((([chars "id", chars "Project"] : Row).map
              (fun c => pyLower (pyStripWS c))).findIdx isMarker) []))).flatten) :=
  ⟨by decide, by decide,
   (c8_loader_amended [chars "id", chars "Project"]
     [[chars "x", chars "a"], [], [chars "y", chars " "]] []).2.1
     (by decide) (by decide)⟩

/-- C10: the shard-append helper copies the source byte-for-byte when
the destination does not exist, appends every source line except the
first when it does, and leaves the destination untouched when the
source does not exist; consequently a worker's accumulated shard built
by merging per-item shards (each a header line followed by header-free
data rows) contains exactly one header line, however many shards are
merged. -/
theorem c10_shard_single_header (s d : List Line) (shards : List (List Line))
    (isH : Line → Bool) :
    append_csv_rows (some s) none = some s ∧
    append_csv_rows (some s) (some d) = some (d ++ s.drop 1) ∧
    append_csv_rows none (some d) = some d ∧
    (shards ≠ [] →
      (∀ f ∈ shards, f ≠ [] ∧ isH (f.headD []) = true ∧
        ∀ ln ∈ f.drop 1, isH ln = false) →
      ((mergeShards shards).getD []).countP isH = 1) := by
  refine ⟨rfl, rfl, rfl, ?_⟩
  intro hne hall
  obtain ⟨f0, rest, rfl⟩ := List.exists_cons_of_ne_nil hne
  have hmerge : mergeShards (f0 :: rest) =
      some (f0 ++ (rest.map (fun t => t.drop 1)).flatten) := by
    rw [mergeShards, List.foldl_cons]
    rw [show append_csv_rows (some f0) none = some f0 from rfl]
    exact mergeShards_foldl rest f0
  rw [hmerge, Option.getD_some]
  obtain ⟨hf0ne, hf0h, hf0tl⟩ := hall f0 (List.mem_cons_self _ _)
  obtain ⟨h0, tl0, rfl⟩ := List.exists_cons_of_ne_nil hf0ne
  simp only [List.headD_cons] at hf0h
  simp only [List.drop_succ_cons, List.drop_zero] at hf0tl
  rw [List.cons_append, List.countP_cons, List.countP_append]
  have htl0 : tl0.countP isH = 0 := by
    rw [List.countP_eq_zero]
    intro ln hln
    simp [hf0tl ln hln]
  have hflat : ((rest.map (fun t => t.drop 1)).flatten).countP isH = 0 := by
    rw [List.countP_eq_zero]
    intro ln hln
    obtain ⟨l', hl', hlnl⟩ := List.mem_flatten.mp hln
    obtain ⟨f, hf, rfl⟩ := List.mem_map.mp hl'
    have := (hall f (List.mem_cons_of_mem _ hf)).2.2 ln hlnl
    simp [this]
  rw [htl0, hflat, hf0h]
  rfl

/-- C10 (witness): two shards with the same header and one data row
each; the merged worker shard has exactly one header line. -/
theorem c10_shard_single_header_witness :
    ([[chars "h", chars "r1"], [chars "h", chars "r2"]] : List (List Line)) ≠ [] ∧
    (∀ f ∈ ([[chars "h", chars "r1"], [chars "h", chars "r2"]] : List (List Line)),
      f ≠ [] ∧ (f.headD [] == chars "h") = true ∧
      ∀ ln ∈ f.drop 1, (ln == chars "h") = false) ∧
    ((mergeShards [[chars "h", chars "r1"], [chars "h", chars "r2"]]).getD []).countP
      (fun ln => ln == chars "h") = 1 :=
  ⟨by decide, by decide,
   (c10_shard_single_header [] [] [[chars "h", chars "r1"], [chars "h", chars "r2"]]
     (fun ln => ln == chars "h")).2.2.2 (by decide) (by decide)⟩
